import Mathlib

/-!
Verification of the B-spline core of the `smooth` library
(`include/smooth/interp/bspline.hpp`) against its natural-language
specification.

Scalars (`double` in the source) are embedded as `ℚ`: every quantity the
claims mention is produced by exact closed-form rational arithmetic, so the
rational embedding computes the same expressions the C++ code computes,
without floating rounding.

The fixed-size matrix type `smooth::meta::StaticMatrix` lives in
`smooth/meta.hpp`, which is not part of the sources under verification.
Modelled from the spec: a `StaticMatrix` is a zero-initialized fixed-size
matrix with the standard matrix product; matrices are embedded as total
functions `ℕ → ℕ → ℚ` that are zero outside their index range.
-/

namespace SmoothSpec

/-- Diagonal "knot blending" matrix `left` of `card_coeffmat` (bspline.hpp
lines 38-41): `left[k][k+1] = (K-(k+1))/K`, `left[k][k] = 1 - left[k][k+1]`,
zero elsewhere.  `Kd` is the degree `K` of the recursion step. -/
def leftW (Kd m j : ℕ) : ℚ :=
  if j = m + 1 then ((Kd : ℚ) - ((m : ℚ) + 1)) / (Kd : ℚ)
  else if j = m then 1 - ((Kd : ℚ) - ((m : ℚ) + 1)) / (Kd : ℚ)
  else 0

/-- Diagonal "knot blending" matrix `right` of `card_coeffmat` (bspline.hpp
lines 42-43): `right[k][k+1] = 1/K`, `right[k][k] = -1/K`, zero elsewhere. -/
def rightW (Kd m j : ℕ) : ℚ :=
  if j = m + 1 then 1 / (Kd : ℚ)
  else if j = m then -(1 / (Kd : ℚ))
  else 0

/-- Embedding of `smooth::detail::card_coeffmat<Scalar, K>` (bspline.hpp
lines 19-48), the cardinal B-spline coefficient matrix of degree `K`, as a
total function that is zero outside the `(K+1)×(K+1)` index range.
`low[i][m] = cm_{K-1}[i][m]` (zero in row `K`), `high[i][m] = cm_{K-1}[i-1][m]`
(zero in row `0`), and the result is `low * left + high * right`. -/
def cardC : ℕ → ℕ → ℕ → ℚ
  | 0, i, j => if i = 0 ∧ j = 0 then 1 else 0
  | K + 1, i, j =>
    if i < K + 2 ∧ j < K + 2 then
      ((List.range (K + 1)).map (fun m =>
        cardC K i m * leftW (K + 1) m j
          + (if i = 0 then 0 else cardC K (i - 1) m) * rightW (K + 1) m j)).sum
    else 0

/-- Embedding of the in-place column accumulation loop of
`smooth::detail::cum_card_coeffmat` (bspline.hpp line 60): starting from a
row of the cardinal matrix, apply `ret[K-1-j] += ret[K-j]` sequentially for
`j = 0..K-1`. -/
def cumRow (K : ℕ) (row : ℕ → ℚ) : ℕ → ℚ :=
  (List.range K).foldl
    (fun r j => Function.update r (K - 1 - j) (r (K - 1 - j) + r (K - j))) row

/-- Embedding of `smooth::detail::cum_card_coeffmat<Scalar, K>` (bspline.hpp
lines 55-63): the cardinal matrix with the right-to-left running column sum
applied to every row. -/
def cumC (K : ℕ) (i j : ℕ) : ℚ := cumRow K (cardC K i) j

/-- Suffix sum `∑_{t=c}^{K} row t` of a matrix row: the mathematical meaning
of the right-to-left running column sum of `cum_card_coeffmat`. -/
def suffixSum (row : ℕ → ℚ) (c K : ℕ) : ℚ :=
  ((List.range (K + 1 - c)).map (fun t => row (c + t))).sum

/-- Embedding of the iteratively computed power vector `uvec` (bspline.hpp
lines 101, 105-106): `uvec(0) = 1`, `uvec(k) = u * uvec(k-1)`. -/
def uvecC (u : ℚ) : ℕ → ℚ
  | 0 => 1
  | k + 1 => u * uvecC u k

/-- Embedding of the first-derivative vector `duvec` (bspline.hpp lines 102,
108): `duvec(0) = 0`, `duvec(k) = k * uvec(k-1)`. -/
def duvecC (u : ℚ) : ℕ → ℚ
  | 0 => 0
  | k + 1 => ((k : ℚ) + 1) * uvecC u k

/-- Embedding of the second-derivative vector `d2uvec` (bspline.hpp lines
103, 109): `d2uvec(0) = 0`, `d2uvec(k) = k * duvec(k-1)`. -/
def d2uvecC (u : ℚ) : ℕ → ℚ
  | 0 => 0
  | k + 1 => ((k : ℚ) + 1) * duvecC u k

/-- The scalar basis value `Btilde_j(u) = uvec.dot(M.row(j))` (bspline.hpp
line 127), where the Eigen matrix `M` is the transposed cumulative
coefficient matrix, so `M.row(j)(i) = cum[i][j]`. -/
def Btilde (K j : ℕ) (u : ℚ) : ℚ :=
  ((List.range (K + 1)).map (fun i => uvecC u i * cumC K i j)).sum

/-- The basis derivative `dBtilde_j(u) = duvec.dot(M.row(j))` (bspline.hpp
line 131). -/
def dBtilde (K j : ℕ) (u : ℚ) : ℚ :=
  ((List.range (K + 1)).map (fun i => duvecC u i * cumC K i j)).sum

/-- The basis second derivative `d2Btilde_j(u) = d2uvec.dot(M.row(j))`
(bspline.hpp line 137). -/
def d2Btilde (K j : ℕ) (u : ℚ) : ℚ :=
  ((List.range (K + 1)).map (fun i => d2uvecC u i * cumC K i j)).sum

/-- The operation set the evaluator requires of a Lie group type `G` with
tangent space `V` (the `LieGroup` capability set of `smooth/concepts.hpp`,
used through `G::exp`, `.log()`, `.Ad()`, `G::ad`, `G::dr_exp`,
`G::dr_expinv`, `operator*`, `.inverse()`, `Identity()` in bspline.hpp).
Square `Dof×Dof` matrices are embedded as maps `V → V`. -/
structure LieOps (G : Type) (V : Type) where
  one : G
  mul : G → G → G
  inv : G → G
  exp : V → G
  log : G → V
  Ad : G → V → V
  ad : V → V → V
  dr_exp : V → V → V
  dr_expinv : V → V → V

/-- Derived inverse left Jacobian, from `LieGroupBase::dl_expinv`
(lie_group_base.hpp): `dl_expinv(t) = -ad(t) + dr_expinv(t)`. -/
def dl_expinv {G V : Type} [AddCommGroup V] (ops : LieOps G V) (t : V) : V → V :=
  fun w => -(ops.ad t w) + ops.dr_expinv t w

/-- State carried by the evaluation loop of `bspline_eval`: the running
group value `g` and the `vel`/`acc` tangent accumulators (bspline.hpp lines
120-143).  Accumulators that are not requested stay at their zero
initialisation. -/
structure EvalAcc (G V : Type) where
  g : G
  vel : V
  acc : V
  deriving DecidableEq

/-- One iteration of the evaluation loop of the displacement-form
`bspline_eval` (bspline.hpp lines 126-143) at loop index `j` with
displacement `v`: `g *= exp(Btilde_j(u) v)`; if velocity or acceleration is
requested, `vel ← Ad(exp(-Btilde_j(u) v)) vel + dBtilde_j(u) v`; if
acceleration is requested, `acc ← Ad(...) acc + dBtilde_j(u) ad(vel') v +
d2Btilde_j(u) v` using the already-updated velocity. -/
def bstep {G V : Type} [AddCommGroup V] [Module ℚ V] (ops : LieOps G V) (K : ℕ) (u : ℚ)
    (wantVel wantAcc : Bool) (s : EvalAcc G V) (j : ℕ) (v : V) : EvalAcc G V :=
  let Bt := Btilde K j u
  let g' := ops.mul s.g (ops.exp (Bt • v))
  if wantVel || wantAcc then
    let dBt := dBtilde K j u
    let Adm := ops.Ad (ops.exp ((-Bt) • v))
    let vel' := Adm s.vel + dBt • v
    if wantAcc then
      let d2Bt := d2Btilde K j u
      ⟨g', vel', Adm s.acc + (dBt • ops.ad vel' v + d2Bt • v)⟩
    else ⟨g', vel', s.acc⟩
  else ⟨g', s.vel, s.acc⟩

/-- The evaluation loop of the displacement-form `bspline_eval` (bspline.hpp
lines 126-143): iterate `bstep` over the displacements with the loop index
`j` starting at `1`. -/
def bloop {G V : Type} [AddCommGroup V] [Module ℚ V] (ops : LieOps G V) (K : ℕ) (u : ℚ)
    (wantVel wantAcc : Bool) : ℕ → EvalAcc G V → List V → EvalAcc G V
  | _, s, [] => s
  | j, s, v :: rest =>
    bloop ops K u wantVel wantAcc (j + 1) (bstep ops K u wantVel wantAcc s j v) rest

/-- The single runtime failure signalled by `bspline_eval`
(`std::runtime_error`, bspline.hpp lines 93-96 and 196-199): the message
reports the expected window size (`K` resp. `K+1`) and the actual size. -/
inductive SplineErr : Type where
  | sizeViolation (expected actual : ℕ) : SplineErr
  deriving DecidableEq

/-- Embedding of the displacement-form `bspline_eval` (bspline.hpp lines
84-170) without the per-control-point Jacobian output: check
`size(diff_points) == K`, then run the fold starting from
`(g_0, vel = 0, acc = 0)`. -/
def bspline_eval {G V : Type} [AddCommGroup V] [Module ℚ V] (ops : LieOps G V) (K : ℕ)
    (g0 : G) (vs : List V) (u : ℚ) (wantVel wantAcc : Bool) :
    Except SplineErr (EvalAcc G V) :=
  if vs.length ≠ K then .error (.sizeViolation K vs.length)
  else .ok (bloop ops K u wantVel wantAcc 1 ⟨g0, 0, 0⟩ vs)

/-- Embedding of the control-point-form `bspline_eval` (bspline.hpp lines
188-212): check `size(ctrl_points) == K + 1`, derive the displacements
`diff_pts[i] = (ctrl[i].inverse() * ctrl[i+1]).log()` from consecutive pairs,
and delegate to the displacement form with `g0 = *begin(ctrl_points)`. -/
def bspline_eval_ctrl {G V : Type} [AddCommGroup V] [Module ℚ V] (ops : LieOps G V) (K : ℕ)
    (ctrl : List G) (u : ℚ) (wantVel wantAcc : Bool) :
    Except SplineErr (EvalAcc G V) :=
  if ctrl.length ≠ K + 1 then .error (.sizeViolation (K + 1) ctrl.length)
  else
    bspline_eval ops K (ctrl.headD ops.one)
      ((ctrl.zip ctrl.tail).map (fun p => ops.log (ops.mul (ops.inv p.1) p.2)))
      u wantVel wantAcc

/-- Checked range access: `*(begin(diff_points) + i)` for a possibly negative
offset `i`, returning `none` when the dereference is outside the valid range
`0..size-1` (in the C++ source such a dereference is undefined behaviour). -/
def getT {V : Type} (vs : List V) (i : ℤ) : Option V :=
  if h : 0 ≤ i ∧ i < (vs.length : ℤ) then some (vs.get ⟨i.toNat, by omega⟩) else none

/-- State of the Jacobian loop of `bspline_eval` (bspline.hpp lines 145-167):
the running remaining-composition inverse `z2inv` and the `Dof×Dof` blocks of
the output Jacobian `der`, block `j` embedded as a map `V → V` (the blocks
are zero-initialised by `der.setZero()`). -/
structure DerAcc (G V : Type) where
  z2inv : G
  blocks : ℕ → V → V

/-- One iteration of the Jacobian loop of `bspline_eval` at index `j`
(bspline.hpp lines 151-166).  For `j ≠ K`:
`der.block(j) -= Btilde_{j+1} * Ad(z2inv) ∘ dr_exp(s_{j+1}) ∘ dl_expinv(v_{j+1})`
with `v_{j+1} = *(begin + j)` and `s_{j+1} = Btilde_{j+1} v_{j+1}`, then
`z2inv *= exp(-s_{j+1})`.  For every `j` (including `j = 0`):
`der.block(j) += Btilde_j * Ad(z2inv) ∘ dr_exp(Btilde_j v_j) ∘ dr_expinv(v_j)`
with `v_j = *(begin + j - 1)`. -/
def derStep {G V : Type} [AddCommGroup V] [Module ℚ V] (ops : LieOps G V) (K : ℕ) (u : ℚ)
    (vs : List V) (s : DerAcc G V) (j : ℕ) : Option (DerAcc G V) := do
  let s1 ←
    if j ≠ K then do
      let Btjp := Btilde K (j + 1) u
      let vjp ← getT vs (j : ℤ)
      let sjp := Btjp • vjp
      let blk := fun w => ops.Ad s.z2inv (ops.dr_exp sjp (dl_expinv ops vjp w))
      pure (DerAcc.mk (ops.mul s.z2inv (ops.exp (-sjp)))
        (Function.update s.blocks j (fun w => s.blocks j w - Btjp • blk w)))
    else pure s
  let Btj := Btilde K j u
  let vj ← getT vs ((j : ℤ) - 1)
  let blk2 := fun w => ops.Ad s1.z2inv (ops.dr_exp (Btj • vj) (ops.dr_expinv vj w))
  pure (DerAcc.mk s1.z2inv
    (Function.update s1.blocks j (fun w => s1.blocks j w + Btj • blk2 w)))

/-- The Jacobian loop `for (int j = K; j >= 0; --j)` of `bspline_eval`
(bspline.hpp line 151), iterating `derStep` from `j` down to `0`. -/
def derLoop {G V : Type} [AddCommGroup V] [Module ℚ V] (ops : LieOps G V) (K : ℕ) (u : ℚ)
    (vs : List V) : ℕ → DerAcc G V → Option (DerAcc G V)
  | 0, s => derStep ops K u vs s 0
  | j + 1, s => (derStep ops K u vs s (j + 1)).bind (derLoop ops K u vs j)

/-- The Jacobian computation of the displacement-form `bspline_eval` when the
`der` output is requested (bspline.hpp lines 145-167), starting from
`z2inv = Identity()` and zeroed blocks. -/
def bsplineDer {G V : Type} [AddCommGroup V] [Module ℚ V] (ops : LieOps G V) (K : ℕ)
    (vs : List V) (u : ℚ) : Option (DerAcc G V) :=
  derLoop ops K u vs K ⟨ops.one, fun _ _ => 0⟩

/-- Truncation toward zero, the semantics of `static_cast<int64_t>(double)`
used to compute the interval index (bspline.hpp line 270). -/
def truncQ (q : ℚ) : ℤ := if 0 ≤ q then ⌊q⌋ else ⌈q⌉

/-- Embedding of the data of `smooth::BSpline<K, G>` (bspline.hpp lines
214-296): start time `t0_`, interval width `dt_`, and the control points. -/
structure BSplineS (G : Type) where
  t0 : ℚ
  dt : ℚ
  ctrl : List G

/-- Embedding of the `BSpline(double, double, std::vector<G>&&)` constructor
(bspline.hpp lines 246-249): member initialisation only, no validation. -/
def BSplineS.mkMove {G : Type} (t0 dt : ℚ) (ctrl : List G) : BSplineS G := ⟨t0, dt, ctrl⟩

/-- Embedding of the range constructor `BSpline(double, double, const R &)`
(bspline.hpp lines 254-259): copies the range into the control-point vector,
no validation. -/
def BSplineS.mkRange {G : Type} (t0 dt : ℚ) (ctrl : List G) : BSplineS G := ⟨t0, dt, ctrl⟩

/-- `BSpline::t_min()` (bspline.hpp line 261). -/
def BSplineS.t_min {G : Type} (sp : BSplineS G) : ℚ := sp.t0

/-- `BSpline::t_max()` (bspline.hpp line 263): `t0 + (size - K) * dt` with
the unsigned subtraction embedded as truncated `ℕ` subtraction. -/
def BSplineS.t_max {G : Type} (K : ℕ) (sp : BSplineS G) : ℚ :=
  sp.t0 + ((sp.ctrl.length - K : ℕ) : ℚ) * sp.dt

/-- Interval selection of `BSpline::eval` (bspline.hpp lines 269-282):
compute `istar = static_cast<int64_t>((t - t0)/dt)` (truncation toward
zero); if `istar < 0` clamp to `(istar, u) = (0, 0)`; else if
`istar + K + 1 > size` clamp to `(size - K - 1, 1)`; otherwise
`u = (t - t0 - istar*dt)/dt`. -/
def BSplineS.evalPair {G : Type} (K : ℕ) (sp : BSplineS G) (t : ℚ) : ℤ × ℚ :=
  if truncQ ((t - sp.t0) / sp.dt) < 0 then (0, 0)
  else if (sp.ctrl.length : ℤ) < truncQ ((t - sp.t0) / sp.dt) + K + 1 then
    ((sp.ctrl.length : ℤ) - K - 1, 1)
  else (truncQ ((t - sp.t0) / sp.dt),
    (t - sp.t0 - (truncQ ((t - sp.t0) / sp.dt) : ℚ) * sp.dt) / sp.dt)

/-- The output rescaling of `BSpline::eval` (bspline.hpp lines 287-288): a
requested velocity is divided by `dt` and a requested acceleration by
`dt²`. -/
def scaleOut {G V : Type} [AddCommGroup V] [Module ℚ V] (dt : ℚ) (wantVel wantAcc : Bool)
    (r : EvalAcc G V) : EvalAcc G V :=
  ⟨r.g, if wantVel then dt⁻¹ • r.vel else r.vel,
    if wantAcc then (dt * dt)⁻¹ • r.acc else r.acc⟩

/-- Embedding of `BSpline::eval` (bspline.hpp lines 265-291): select the
interval and local parameter with `evalPair`, slice the window of `K+1`
control points starting at `istar`, delegate to the control-point evaluator,
and rescale the requested derivatives (an error propagates unchanged, as the
C++ exception does). -/
def BSplineS.eval {G V : Type} [AddCommGroup V] [Module ℚ V] (ops : LieOps G V) (K : ℕ)
    (sp : BSplineS G) (t : ℚ) (wantVel wantAcc : Bool) :
    Except SplineErr (EvalAcc G V) :=
  Except.map (scaleOut sp.dt wantVel wantAcc)
    (bspline_eval_ctrl ops K
      ((sp.ctrl.drop (BSplineS.evalPair K sp t).1.toNat).take (K + 1))
      (BSplineS.evalPair K sp t).2 wantVel wantAcc)

/-- The `d`-dimensional translation group `(ℚ^d, +)`, the simplest concrete
model of the group contract (a vector space viewed as a Lie group):
`exp = log = id`, `Ad = I`, `ad = 0`, and both exponential Jacobians are the
identity matrix. -/
def transOps (d : ℕ) : LieOps (Fin d → ℚ) (Fin d → ℚ) where
  one := 0
  mul := fun a b => a + b
  inv := fun a => -a
  exp := fun v => v
  log := fun g => g
  Ad := fun _ v => v
  ad := fun _ _ => 0
  dr_exp := fun _ w => w
  dr_expinv := fun _ w => w

/-- Spec-side formulation of the basis value: the degree-`K` cumulative basis
polynomial `B̃_j` evaluated via the power vector `[1, u, …, u^K]`, written
with the `u ^ i` monomials directly. -/
def powerBasis (K j : ℕ) (u : ℚ) : ℚ :=
  ((List.range (K + 1)).map (fun i => u ^ i * cumC K i j)).sum

/-- Spec-side formulation of the displacement-form curve value: the
left-to-right fold `g0 * exp(B̃_1(u)·v_1) * … * exp(B̃_K(u)·v_K)`, composing
strictly in the order `j = 1..K`. -/
def specProduct {G V : Type} [AddCommGroup V] [Module ℚ V] (ops : LieOps G V) (K : ℕ)
    (g0 : G) (vs : List V) (u : ℚ) : G :=
  (List.range K).foldl
    (fun g j => ops.mul g (ops.exp (powerBasis K (j + 1) u • vs.getD j 0))) g0

/-- Spec-side formulation of the internally derived displacements of the
control-point form: `v_i = log(ctrl[i-1]⁻¹ · ctrl[i])` for `i = 1..K`. -/
def specDiffs {G V : Type} (ops : LieOps G V) (K : ℕ) (ctrl : List G) : List V :=
  (List.range K).map
    (fun i => ops.log (ops.mul (ops.inv (ctrl.getD i ops.one)) (ctrl.getD (i + 1) ops.one)))

/-- The algebraic laws of the group contract (spec §4.1) used by the claims:
group axioms, `exp(0) = Identity()`, and the exp/log round trips. -/
structure LieLaws {G V : Type} [AddCommGroup V] [Module ℚ V] (ops : LieOps G V) : Prop where
  mul_assoc : ∀ a b c, ops.mul (ops.mul a b) c = ops.mul a (ops.mul b c)
  one_mul : ∀ g, ops.mul ops.one g = g
  mul_one : ∀ g, ops.mul g ops.one = g
  mul_inv : ∀ g, ops.mul g (ops.inv g) = ops.one
  exp_zero : ops.exp 0 = ops.one
  exp_log : ∀ g, ops.exp (ops.log g) = g
  log_exp : ∀ v, ops.log (ops.exp v) = v

/-! ### Helper lemmas -/

theorem transLaws (d : ℕ) : LieLaws (transOps d) := by
  refine ⟨?_, ?_, ?_, ?_, ?_, ?_, ?_⟩ <;> intros <;>
    simp [transOps, add_assoc]

theorem uvecC_eq_pow (u : ℚ) : ∀ i, uvecC u i = u ^ i := by
  intro i
  induction i with
  | zero => simp [uvecC]
  | succ k ih => simp [uvecC, ih, pow_succ]; ring

theorem suffixSum_self (row : ℕ → ℚ) (K : ℕ) : suffixSum row K K = row K := by
  unfold suffixSum
  rw [show K + 1 - K = 1 from by omega]
  simp [List.range_succ]

theorem suffixSum_peel (row : ℕ → ℚ) (c K : ℕ) (h : c ≤ K) :
    suffixSum row c K = row c + suffixSum row (c + 1) K := by
  unfold suffixSum
  rw [show K + 1 - c = (K - c) + 1 from by omega,
    show K + 1 - (c + 1) = K - c from by omega,
    List.range_succ_eq_map, List.map_cons, List.sum_cons, List.map_map]
  have hf : ((fun t => row (c + t)) ∘ Nat.succ) = fun t => row (c + 1 + t) := by
    funext t
    simp only [Function.comp_apply]
    congr 1
    omega
  rw [hf]
  norm_num

theorem cumRow_fold (row : ℕ → ℚ) (K : ℕ) :
    ∀ m, m ≤ K → ∀ c,
      ((List.range m).foldl
        (fun r j => Function.update r (K - 1 - j) (r (K - 1 - j) + r (K - j))) row) c
      = if K - m ≤ c ∧ c < K then suffixSum row c K else row c := by
  intro m
  induction m with
  | zero =>
    intro _ c
    simp only [List.range_zero, List.foldl_nil]
    have : ¬(K - 0 ≤ c ∧ c < K) := by omega
    rw [if_neg this]
  | succ m ih =>
    intro hm c
    rw [List.range_succ, List.foldl_append, List.foldl_cons, List.foldl_nil]
    have ihm := ih (by omega)
    have hKm : ((List.range m).foldl
        (fun r j => Function.update r (K - 1 - j) (r (K - 1 - j) + r (K - j))) row) (K - m)
        = suffixSum row (K - m) K := by
      rw [ihm]
      by_cases hm0 : m = 0
      · subst hm0
        have : ¬(K - 0 ≤ K - 0 ∧ K - 0 < K) := by omega
        rw [if_neg this]
        simp [suffixSum_self]
      · have : K - m ≤ K - m ∧ K - m < K := by omega
        rw [if_pos this]
    by_cases hc : c = K - 1 - m
    · subst hc
      rw [Function.update_same, ihm, hKm]
      have h1 : ¬(K - m ≤ K - 1 - m ∧ K - 1 - m < K) := by omega
      rw [if_neg h1]
      have h2 : K - (m + 1) ≤ K - 1 - m ∧ K - 1 - m < K := by omega
      rw [if_pos h2]
      rw [suffixSum_peel row (K - 1 - m) K (by omega),
        show K - 1 - m + 1 = K - m from by omega]
    · rw [Function.update_noteq hc, ihm]
      by_cases h3 : K - (m + 1) ≤ c ∧ c < K
      · rw [if_pos h3]
        have h4 : K - m ≤ c ∧ c < K := by omega
        rw [if_pos h4]
      · rw [if_neg h3]
        have h4 : ¬(K - m ≤ c ∧ c < K) := by omega
        rw [if_neg h4]

theorem cumC_eq_suffixSum (K i c : ℕ) (h : c ≤ K) :
    cumC K i c = suffixSum (cardC K i) c K := by
  unfold cumC cumRow
  rw [cumRow_fold (cardC K i) K K le_rfl c]
  by_cases hc : c < K
  · rw [if_pos ⟨by omega, hc⟩]
  · have hcK : c = K := by omega
    rw [if_neg (by omega : ¬(K - K ≤ c ∧ c < K)), hcK, suffixSum_self]

theorem Btilde_eq_powerBasis (K j : ℕ) (u : ℚ) : Btilde K j u = powerBasis K j u := by
  unfold Btilde powerBasis
  have : (fun i => uvecC u i * cumC K i j) = fun i => u ^ i * cumC K i j := by
    funext i
    rw [uvecC_eq_pow]
  rw [this]

theorem bloop_false {G V : Type} [AddCommGroup V] [Module ℚ V] (ops : LieOps G V)
    (K : ℕ) (u : ℚ) :
    ∀ (vs : List V) (j : ℕ) (g : G) (w a : V),
      bloop ops K u false false j ⟨g, w, a⟩ vs
      = ⟨(List.range vs.length).foldl
          (fun h t => ops.mul h (ops.exp (Btilde K (j + t) u • vs.getD t 0))) g, w, a⟩ := by
  intro vs
  induction vs with
  | nil => intro j g w a; rfl
  | cons v rest ih =>
    intro j g w a
    have hstep : bstep ops K u false false ⟨g, w, a⟩ j v
        = ⟨ops.mul g (ops.exp (Btilde K j u • v)), w, a⟩ := by
      simp [bstep]
    rw [show bloop ops K u false false j ⟨g, w, a⟩ (v :: rest)
        = bloop ops K u false false (j + 1) (bstep ops K u false false ⟨g, w, a⟩ j v) rest
        from rfl, hstep, ih]
    have hlist : (List.range (v :: rest).length).foldl
        (fun h t => ops.mul h (ops.exp (Btilde K (j + t) u • (v :: rest).getD t 0))) g
        = (List.range rest.length).foldl
          (fun h t => ops.mul h (ops.exp (Btilde K (j + 1 + t) u • rest.getD t 0)))
          (ops.mul g (ops.exp (Btilde K j u • v))) := by
      simp only [List.length_cons, List.range_succ_eq_map, List.foldl_cons, List.foldl_map,
        List.getD_cons_zero, List.getD_cons_succ, Nat.add_zero]
      congr 1
      funext h t
      rw [show j + (t + 1) = j + 1 + t from by omega]
    rw [hlist]

theorem zip_tail_map_eq {G V : Type} (f : G → G → V) (d : G) : ∀ l : List G,
    (l.zip l.tail).map (fun p => f p.1 p.2)
    = (List.range (l.length - 1)).map (fun i => f (l.getD i d) (l.getD (i + 1) d)) := by
  intro l
  induction l with
  | nil => rfl
  | cons a t ih =>
    cases t with
    | nil => rfl
    | cons b t' =>
      have hL : ((a :: b :: t').zip (a :: b :: t').tail).map (fun p => f p.1 p.2)
          = f a b :: ((b :: t').zip (b :: t').tail).map (fun p => f p.1 p.2) := rfl
      rw [hL, ih]
      have hlen : (a :: b :: t').length - 1 = ((b :: t').length - 1) + 1 := by
        simp only [List.length_cons]
        omega
      rw [hlen, List.range_succ_eq_map, List.map_cons, List.map_map]
      refine congrArg₂ List.cons rfl ?_
      congr 1

theorem bspline_eval_ok {G V : Type} [AddCommGroup V] [Module ℚ V] (ops : LieOps G V)
    (K : ℕ) (g0 : G) (vs : List V) (u : ℚ) (w1 w2 : Bool) (h : vs.length = K) :
    ∃ r, bspline_eval ops K g0 vs u w1 w2 = .ok r := by
  unfold bspline_eval
  rw [if_neg (by simp [h])]
  exact ⟨_, rfl⟩

theorem bspline_eval_ctrl_ok {G V : Type} [AddCommGroup V] [Module ℚ V] (ops : LieOps G V)
    (K : ℕ) (ctrl : List G) (u : ℚ) (w1 w2 : Bool) (h : ctrl.length = K + 1) :
    ∃ r, bspline_eval_ctrl ops K ctrl u w1 w2 = .ok r := by
  unfold bspline_eval_ctrl bspline_eval
  rw [if_neg (by simp [h])]
  have hd : ((ctrl.zip ctrl.tail).map
      (fun p => ops.log (ops.mul (ops.inv p.1) p.2))).length = K := by
    simp [List.length_zip, h]
  rw [if_neg (by simp [hd])]
  exact ⟨_, rfl⟩

theorem scaleOut_false {G V : Type} [AddCommGroup V] [Module ℚ V] (dt : ℚ)
    (x : Except SplineErr (EvalAcc G V)) :
    Except.map (scaleOut dt false false) x = x := by
  cases x <;> rfl

theorem truncQ_neg (q : ℚ) (h : q ≤ -1) : truncQ q < 0 := by
  unfold truncQ
  rw [if_neg (by linarith)]
  have : (⌈q⌉ : ℤ) ≤ -1 := Int.ceil_le.mpr (by exact_mod_cast h)
  omega

theorem truncQ_ge (q : ℚ) (m : ℤ) (hm : 0 ≤ m) (h : (m : ℚ) ≤ q) : m ≤ truncQ q := by
  unfold truncQ
  rw [if_pos (le_trans (by exact_mod_cast hm) h)]
  exact Int.le_floor.mpr (by exact_mod_cast h)

theorem truncQ_natCast_add (istar : ℕ) (u : ℚ) (h0 : 0 ≤ u) (h1 : u < 1) :
    truncQ ((istar : ℚ) + u) = istar := by
  unfold truncQ
  rw [if_pos (by positivity)]
  have hu : ⌊u⌋ = 0 := Int.floor_eq_zero_iff.mpr ⟨h0, h1⟩
  rw [add_comm, Int.floor_add_nat, hu, zero_add]

theorem window_length {G : Type} (l : List G) (i K : ℕ) (h : i + (K + 1) ≤ l.length) :
    ((l.drop i).take (K + 1)).length = K + 1 := by
  simp only [List.length_take, List.length_drop]
  omega

theorem Btilde_one_one (u : ℚ) : Btilde 1 1 u = u := by
  norm_num [Btilde, cumC, cumRow, cardC, leftW, rightW, List.range_succ, uvecC]

theorem inv_one_of_laws {G V : Type} [AddCommGroup V] [Module ℚ V] {ops : LieOps G V}
    (laws : LieLaws ops) : ops.inv ops.one = ops.one := by
  have h1 := laws.mul_inv ops.one
  have h2 := laws.one_mul (ops.inv ops.one)
  rw [h2] at h1
  exact h1

theorem truncQ_intCast (n : ℤ) : truncQ ((n : ℚ)) = n := by
  unfold truncQ
  by_cases h : (0 : ℚ) ≤ (n : ℚ)
  · rw [if_pos h, Int.floor_intCast]
  · rw [if_neg h, Int.ceil_intCast]

theorem ctrl_eval_lin (u : ℚ) :
    bspline_eval_ctrl (transOps 1) 1 [(fun _ => 0 : Fin 1 → ℚ), fun _ => 1] u false false
    = .ok ⟨fun _ => u, 0, 0⟩ := by
  simp [bspline_eval_ctrl, bspline_eval, bloop, bstep, transOps, Btilde_one_one]
  funext i
  simp

theorem evalS_ok_of_pair {G V : Type} [AddCommGroup V] [Module ℚ V] (ops : LieOps G V)
    (K : ℕ) (sp : BSplineS G) (t : ℚ) (i : ℤ) (u' : ℚ)
    (hp : BSplineS.evalPair K sp t = (i, u'))
    (hbound : i.toNat + (K + 1) ≤ sp.ctrl.length) :
    ∃ r, BSplineS.eval ops K sp t false false = .ok r := by
  obtain ⟨r, hr⟩ := bspline_eval_ctrl_ok ops K ((sp.ctrl.drop i.toNat).take (K + 1)) u'
    false false (window_length _ _ _ hbound)
  refine ⟨scaleOut sp.dt false false r, ?_⟩
  have hstep : BSplineS.eval ops K sp t false false
      = Except.map (scaleOut sp.dt false false)
          (bspline_eval_ctrl ops K ((sp.ctrl.drop i.toNat).take (K + 1)) u' false false) := by
    unfold BSplineS.eval
    rw [hp]
  rw [hstep, hr]
  rfl

/-! ### Claim theorems -/

/-- C5 counterexample: for degree `K = 2` (which the claim's "every K ≥ 1"
includes) on the 1-DoF translation group, with `g0 = 0` and displacements
`[1, 0]`, the displacement-form evaluator at `u = 0` does not return `g0`:
the cumulative basis value `B̃_1(0) = 1/2` does not vanish, so the result is
`g0 + 1/2 ≠ g0`. -/
theorem claim_C5_counterexample :
    [(fun _ => 1 : Fin 1 → ℚ), fun _ => 0].length = 2 ∧
    Except.map EvalAcc.g
      (bspline_eval (transOps 1) 2 0 [(fun _ => 1 : Fin 1 → ℚ), fun _ => 0] 0 false false)
    ≠ .ok 0 := by
  refine ⟨rfl, ?_⟩
  have hB1 : Btilde 2 1 0 = 1 / 2 := by
    norm_num [Btilde, cumC, cumRow, cardC, leftW, rightW, List.range_succ, uvecC]
  have hB2 : Btilde 2 2 0 = 0 := by
    norm_num [Btilde, cumC, cumRow, cardC, leftW, rightW, List.range_succ, uvecC]
  have hev : bspline_eval (transOps 1) 2 0
      [(fun _ => 1 : Fin 1 → ℚ), fun _ => 0] 0 false false
      = .ok ⟨fun _ => 1 / 2, 0, 0⟩ := by
    simp [bspline_eval, bloop, bstep, transOps, hB1, hB2]
    funext i
    simp
  rw [hev]
  intro hEq
  have h2 : (fun _ => (1 / 2 : ℚ)) = (0 : Fin 1 → ℚ) := Except.ok.inj hEq
  have hg := congrFun h2 0
  norm_num at hg

/-- C5 amended: the boundary conditions hold for degree `K = 1` (for `K ≥ 2`
they fail, see the counterexample): at `u = 0` the displacement-form
`bspline_eval` returns exactly `g0` (the cumulative basis value `B̃_1(0)`
vanishes), and at `u = 1` the control-point-form `bspline_eval` returns
exactly the last control point `ctrl_points[1]` (the cumulative basis value
`B̃_1(1)` equals `1`) — exactly, in the exact-arithmetic embedding. -/
theorem claim_C5_amended {G V : Type} [AddCommGroup V] [Module ℚ V] (ops : LieOps G V)
    (laws : LieLaws ops) (g0 : G) (v : V) (c0 c1 : G) :
    bspline_eval ops 1 g0 [v] 0 false false = .ok ⟨g0, 0, 0⟩ ∧
    bspline_eval_ctrl ops 1 [c0, c1] 1 false false = .ok ⟨c1, 0, 0⟩ := by
  constructor
  · unfold bspline_eval
    rw [if_neg (by simp)]
    have h1 : bloop ops 1 0 false false 1 ⟨g0, (0 : V), (0 : V)⟩ [v]
        = bstep ops 1 0 false false ⟨g0, 0, 0⟩ 1 v := rfl
    have h2 : bstep ops 1 0 false false ⟨g0, (0 : V), (0 : V)⟩ 1 v
        = ⟨ops.mul g0 (ops.exp (Btilde 1 1 0 • v)), 0, 0⟩ := by
      simp [bstep]
    rw [h1, h2, Btilde_one_one, zero_smul, laws.exp_zero, laws.mul_one]
  · unfold bspline_eval_ctrl
    rw [if_neg (by simp)]
    show bspline_eval ops 1 c0 [ops.log (ops.mul (ops.inv c0) c1)] 1 false false = _
    unfold bspline_eval
    rw [if_neg (by simp)]
    have h1 : bloop ops 1 1 false false 1 ⟨c0, (0 : V), (0 : V)⟩
        [ops.log (ops.mul (ops.inv c0) c1)]
        = ⟨ops.mul c0 (ops.exp (Btilde 1 1 1 • ops.log (ops.mul (ops.inv c0) c1))),
            0, 0⟩ := by
      simp [bloop, bstep]
    rw [h1, Btilde_one_one, one_smul, laws.exp_log, ← laws.mul_assoc, laws.mul_inv,
      laws.one_mul]

/-- Witness for the amended C5: the 1-DoF translation group with `g0 = 0`,
`v = 1`, control points `[0, 1]`. -/
theorem claim_C5_witness :
    bspline_eval (transOps 1) 1 0 [(fun _ => 1 : Fin 1 → ℚ)] 0 false false
      = .ok ⟨0, 0, 0⟩ ∧
    bspline_eval_ctrl (transOps 1) 1 [(0 : Fin 1 → ℚ), fun _ => 1] 1 false false
      = .ok ⟨fun _ => 1, 0, 0⟩ :=
  claim_C5_amended (transOps 1) (transLaws 1) 0 (fun _ => 1) 0 (fun _ => 1)

/-- C6: for every degree `K`, the cumulative basis coefficient matrix equals
the cardinal coefficient matrix transformed by the right-to-left running
column sum (each row entry `c` becomes the suffix sum `∑_{j'=c}^{K}` of the
cardinal row), and the recursion's base case `K = 0` yields the 1×1
cumulative coefficient matrix `[[1]]`. -/
theorem claim_C6 :
    (∀ K i c, c ≤ K → cumC K i c = suffixSum (cardC K i) c K) ∧
    (∀ i j, cumC 0 i j = if i = 0 ∧ j = 0 then 1 else 0) := by
  constructor
  · exact cumC_eq_suffixSum
  · intro i j
    simp [cumC, cumRow, cardC]

/-- Witness for C6 at the concrete degree `K = 2`, matrix entry `(0, 1)`. -/
theorem claim_C6_witness :
    (1 : ℕ) ≤ 2 ∧ cumC 2 0 1 = suffixSum (cardC 2 0) 1 2 :=
  ⟨by decide, claim_C6.1 2 0 1 (by decide)⟩

/-- C1: for every Lie group (operation set), degree `K`, base element `g0`,
list of exactly `K` tangent displacements and parameter `u`, the
displacement-form `bspline_eval` returns exactly the left-to-right fold
`g0 * exp(B̃_1(u)·v_1) * … * exp(B̃_K(u)·v_K)`, where `B̃_j(u)` is the
degree-`K` cumulative basis polynomial evaluated via the power vector
`[1, u, …, u^K]`, composing strictly in the order `j = 1..K`. -/
theorem claim_C1 {G V : Type} [AddCommGroup V] [Module ℚ V] (ops : LieOps G V) (K : ℕ)
    (g0 : G) (vs : List V) (u : ℚ) (h : vs.length = K) :
    bspline_eval ops K g0 vs u false false
    = .ok ⟨specProduct ops K g0 vs u, 0, 0⟩ := by
  unfold bspline_eval
  rw [if_neg (by simp [h])]
  rw [bloop_false ops K u vs 1 g0 0 0]
  unfold specProduct
  rw [h]
  have : (List.range K).foldl
      (fun g t => ops.mul g (ops.exp (Btilde K (1 + t) u • vs.getD t 0))) g0
      = (List.range K).foldl
        (fun g j => ops.mul g (ops.exp (powerBasis K (j + 1) u • vs.getD j 0))) g0 := by
    congr 1
    funext g t
    rw [Btilde_eq_powerBasis, Nat.add_comm 1 t]
  rw [this]

/-- Witness for C1: the translation group on `ℚ¹`, degree `K = 1`, one
displacement, `u = 0`. -/
theorem claim_C1_witness :
    [(fun _ => 1 : Fin 1 → ℚ)].length = 1 ∧
    bspline_eval (transOps 1) 1 0 [fun _ => 1] 0 false false
    = .ok ⟨specProduct (transOps 1) 1 0 [fun _ => 1] 0, 0, 0⟩ :=
  ⟨rfl, claim_C1 (transOps 1) 1 0 [fun _ => 1] 0 rfl⟩

/-- C2 (refuted; the code reads out of range): with degree `K = 1` and a
displacement window of exactly `K = 1` elements — the stated precondition —
the Jacobian (`der`) computation fails: its loop iteration `j = 0`
dereferences `*(begin(diff_points) + j - 1)`, i.e. `diff_points[-1]`.  In the
embedding, where every range access is checked (`getT`), the iteration at
`j = K = 1` succeeds but the full loop returns `none`, and the offending
access `begin + 0 - 1` is outside the valid range. -/
theorem claim_C2 :
    [(fun _ => 1 : Fin 1 → ℚ)].length = 1 ∧
    (derStep (transOps 1) 1 0 [fun _ => 1] ⟨(transOps 1).one, fun _ _ => 0⟩ 1).isSome = true ∧
    getT [(fun _ => 1 : Fin 1 → ℚ)] ((0 : ℤ) - 1) = none ∧
    bsplineDer (transOps 1) 1 [fun _ => 1] 0 = none :=
  ⟨rfl, rfl, rfl, rfl⟩

/-- C3 counterexample: for the degree-1 spline on the 1-DoF translation group
with control points `[0, 1]`, `t0 = 0`, `dt = 1`, the query `t = -1/2` lies
below `t_min() = 0`, yet `eval` does not return the curve value at `u = 0` on
the first window: `static_cast<int64_t>(-1/2) = 0` (truncation toward zero,
not floor), so the first window is evaluated at the negative parameter
`u = -1/2` instead of being clamped. -/
theorem claim_C3_counterexample :
    (-(1/2) : ℚ) < BSplineS.t_min
      (⟨0, 1, [(fun _ => 0 : Fin 1 → ℚ), fun _ => 1]⟩ : BSplineS (Fin 1 → ℚ)) ∧
    BSplineS.eval (transOps 1) 1 ⟨0, 1, [(fun _ => 0 : Fin 1 → ℚ), fun _ => 1]⟩
      (-(1/2)) false false
    ≠ bspline_eval_ctrl (transOps 1) 1
        ([(fun _ => 0 : Fin 1 → ℚ), fun _ => 1].take (1 + 1)) 0 false false := by
  constructor
  · show (-(1/2) : ℚ) < 0
    norm_num
  · have hp : BSplineS.evalPair 1
        (⟨0, 1, [(fun _ => 0 : Fin 1 → ℚ), fun _ => 1]⟩ : BSplineS (Fin 1 → ℚ)) (-(1/2))
        = (0, -(1/2)) := by
      unfold BSplineS.evalPair
      norm_num
      have h : truncQ (-(1/2 : ℚ)) = 0 := by
        unfold truncQ
        norm_num
      rw [h]
      norm_num
    have hL : BSplineS.eval (transOps 1) 1
        ⟨0, 1, [(fun _ => 0 : Fin 1 → ℚ), fun _ => 1]⟩ (-(1/2)) false false
        = .ok ⟨fun _ => -(1/2), 0, 0⟩ := by
      have hstep : BSplineS.eval (transOps 1) 1
          ⟨0, 1, [(fun _ => 0 : Fin 1 → ℚ), fun _ => 1]⟩ (-(1/2)) false false
          = Except.map (scaleOut 1 false false)
              (bspline_eval_ctrl (transOps 1) 1
                [(fun _ => 0 : Fin 1 → ℚ), fun _ => 1] (-(1/2)) false false) := by
        unfold BSplineS.eval
        rw [hp]
        rfl
      rw [hstep, scaleOut_false, ctrl_eval_lin]
    have hR : bspline_eval_ctrl (transOps 1) 1
        ([(fun _ => 0 : Fin 1 → ℚ), fun _ => 1].take (1 + 1)) 0 false false
        = .ok ⟨fun _ => (0 : ℚ), 0, 0⟩ := by
      have h0 := ctrl_eval_lin 0
      exact h0
    rw [hL, hR]
    intro hEq
    have hg := congrFun (congrArg EvalAcc.g (Except.ok.inj hEq)) 0
    norm_num at hg

/-- C3 amended: the interval index is computed by truncation toward zero, so
lower-side clamping to `u = 0` on the first window applies exactly when
`t ≤ t0 - dt` (for `t0 - dt < t < t0` the first window is evaluated at the
negative parameter `u = (t - t0)/dt` instead); upper-side clamping to `u = 1`
on the last valid window applies for every `t ≥ t_max()`; and no query at any
time raises an error. -/
theorem claim_C3_amended {G V : Type} [AddCommGroup V] [Module ℚ V] (ops : LieOps G V)
    (K : ℕ) (sp : BSplineS G) (hdt : 0 < sp.dt) (hlen : K + 1 ≤ sp.ctrl.length) (t : ℚ) :
    (t ≤ sp.t0 - sp.dt →
      BSplineS.eval ops K sp t false false
      = bspline_eval_ctrl ops K (sp.ctrl.take (K + 1)) 0 false false) ∧
    (BSplineS.t_max K sp ≤ t →
      BSplineS.eval ops K sp t false false
      = bspline_eval_ctrl ops K
          ((sp.ctrl.drop (sp.ctrl.length - (K + 1))).take (K + 1)) 1 false false) ∧
    (∃ r, BSplineS.eval ops K sp t false false = .ok r) := by
  have hKlen : (K : ℤ) ≤ (sp.ctrl.length : ℤ) := by exact_mod_cast Nat.le_of_succ_le hlen
  refine ⟨?_, ?_, ?_⟩
  · intro ht
    have h1 : (t - sp.t0) / sp.dt ≤ -1 := by
      rw [div_le_iff₀ hdt]
      linarith
    have h2 : truncQ ((t - sp.t0) / sp.dt) < 0 := truncQ_neg _ h1
    have hp : BSplineS.evalPair K sp t = (0, 0) := by
      unfold BSplineS.evalPair
      rw [if_pos h2]
    have hstep : BSplineS.eval ops K sp t false false
        = Except.map (scaleOut sp.dt false false)
            (bspline_eval_ctrl ops K ((sp.ctrl.drop (0 : ℤ).toNat).take (K + 1)) 0
              false false) := by
      unfold BSplineS.eval
      rw [hp]
    rw [hstep, scaleOut_false]
    rfl
  · intro ht
    have hcast : ((sp.ctrl.length - K : ℕ) : ℚ) = (sp.ctrl.length : ℚ) - K := by
      rw [Nat.cast_sub (by omega)]
    have h1 : ((sp.ctrl.length : ℚ) - K) ≤ (t - sp.t0) / sp.dt := by
      rw [le_div_iff₀ hdt]
      have hmax : BSplineS.t_max K sp
          = sp.t0 + ((sp.ctrl.length - K : ℕ) : ℚ) * sp.dt := rfl
      rw [hmax, hcast] at ht
      linarith
    have h2 : ((sp.ctrl.length : ℤ) - K) ≤ truncQ ((t - sp.t0) / sp.dt) := by
      apply truncQ_ge _ _ (by omega)
      push_cast
      exact h1
    have h3 : ¬ truncQ ((t - sp.t0) / sp.dt) < 0 := by omega
    have h4 : (sp.ctrl.length : ℤ) < truncQ ((t - sp.t0) / sp.dt) + K + 1 := by omega
    have hp : BSplineS.evalPair K sp t = ((sp.ctrl.length : ℤ) - K - 1, 1) := by
      unfold BSplineS.evalPair
      rw [if_neg h3, if_pos h4]
    have hstep : BSplineS.eval ops K sp t false false
        = Except.map (scaleOut sp.dt false false)
            (bspline_eval_ctrl ops K
              ((sp.ctrl.drop ((sp.ctrl.length : ℤ) - K - 1).toNat).take (K + 1)) 1
              false false) := by
      unfold BSplineS.eval
      rw [hp]
    have htn : ((sp.ctrl.length : ℤ) - K - 1).toNat = sp.ctrl.length - (K + 1) := by
      omega
    rw [hstep, scaleOut_false, htn]
  · by_cases hA : truncQ ((t - sp.t0) / sp.dt) < 0
    · have hp : BSplineS.evalPair K sp t = (0, 0) := by
        unfold BSplineS.evalPair
        rw [if_pos hA]
      exact evalS_ok_of_pair ops K sp t 0 0 hp (by simpa using hlen)
    · by_cases hB : (sp.ctrl.length : ℤ) < truncQ ((t - sp.t0) / sp.dt) + K + 1
      · have hp : BSplineS.evalPair K sp t = ((sp.ctrl.length : ℤ) - K - 1, 1) := by
          unfold BSplineS.evalPair
          rw [if_neg hA, if_pos hB]
        exact evalS_ok_of_pair ops K sp t _ _ hp (by omega)
      · have hp : BSplineS.evalPair K sp t
            = (truncQ ((t - sp.t0) / sp.dt),
              (t - sp.t0 - (truncQ ((t - sp.t0) / sp.dt) : ℚ) * sp.dt) / sp.dt) := by
          unfold BSplineS.evalPair
          rw [if_neg hA, if_neg hB]
        exact evalS_ok_of_pair ops K sp t _ _ hp (by omega)

/-- Witness for the amended C3: a degree-1 spline on the 1-DoF translation
group with two control points, `t0 = 0`, `dt = 1`, queried at `t = 0`. -/
theorem claim_C3_witness :
    (0 : ℚ) < 1 ∧ 1 + 1 ≤ 2 ∧
    (∃ r, BSplineS.eval (transOps 1) 1
      (⟨0, 1, [(fun _ => 0 : Fin 1 → ℚ), fun _ => 1]⟩ : BSplineS (Fin 1 → ℚ))
      0 false false = .ok r) :=
  ⟨by decide, by decide,
    (claim_C3_amended (transOps 1) 1
      ⟨0, 1, [(fun _ => 0 : Fin 1 → ℚ), fun _ => 1]⟩ (by decide) (by decide) 0).2.2⟩

/-- C4: for every range of exactly `K+1` control points and every parameter
`u`, the control-point-form `bspline_eval` returns the same result as the
displacement-form `bspline_eval` applied to `g0 = ctrl[0]` and the displacements
`v_i = log(ctrl[i-1]⁻¹ · ctrl[i])` for `i = 1..K` (here `specDiffs`, written
from the spec); the two entry points produce the same curve. -/
theorem claim_C4 {G V : Type} [AddCommGroup V] [Module ℚ V] (ops : LieOps G V) (K : ℕ)
    (ctrl : List G) (u : ℚ) (wantVel wantAcc : Bool) (h : ctrl.length = K + 1) :
    bspline_eval_ctrl ops K ctrl u wantVel wantAcc
    = bspline_eval ops K (ctrl.getD 0 ops.one) (specDiffs ops K ctrl) u wantVel wantAcc := by
  unfold bspline_eval_ctrl
  rw [if_neg (by simp [h])]
  have h1 : ctrl.headD ops.one = ctrl.getD 0 ops.one := by
    cases ctrl with
    | nil => rfl
    | cons a t => rfl
  have h2 : (ctrl.zip ctrl.tail).map (fun p => ops.log (ops.mul (ops.inv p.1) p.2))
      = specDiffs ops K ctrl := by
    rw [zip_tail_map_eq (fun x y => ops.log (ops.mul (ops.inv x) y)) ops.one ctrl]
    unfold specDiffs
    rw [show ctrl.length - 1 = K from by omega]
  rw [h1, h2]

/-- Witness for C4: the translation group on `ℚ¹`, degree `K = 1`, two
control points, `u = 0`. -/
theorem claim_C4_witness :
    [(fun _ => 0 : Fin 1 → ℚ), fun _ => 1].length = 1 + 1 ∧
    bspline_eval_ctrl (transOps 1) 1 [(fun _ => 0 : Fin 1 → ℚ), fun _ => 1] 0 false false
    = bspline_eval (transOps 1) 1
        ([(fun _ => 0 : Fin 1 → ℚ), fun _ => 1].getD 0 (transOps 1).one)
        (specDiffs (transOps 1) 1 [(fun _ => 0 : Fin 1 → ℚ), fun _ => 1]) 0 false false :=
  ⟨rfl, claim_C4 (transOps 1) 1 [fun _ => 0, fun _ => 1] 0 false false rfl⟩

/-- C7: a call to `bspline_eval` whose window size differs from the
statically required count (`K` for the displacement form, `K+1` for the
control-point form) raises the size-violation error carrying both the
expected count and the actual count, and a call with the correct window size
does not raise that error (it returns a value). -/
theorem claim_C7 {G V : Type} [AddCommGroup V] [Module ℚ V] (ops : LieOps G V) (K : ℕ)
    (g0 : G) (u : ℚ) (wantVel wantAcc : Bool) :
    (∀ vs : List V, vs.length ≠ K →
      bspline_eval ops K g0 vs u wantVel wantAcc
      = .error (.sizeViolation K vs.length)) ∧
    (∀ ctrl : List G, ctrl.length ≠ K + 1 →
      bspline_eval_ctrl ops K ctrl u wantVel wantAcc
      = .error (.sizeViolation (K + 1) ctrl.length)) ∧
    (∀ vs : List V, vs.length = K →
      ∃ r, bspline_eval ops K g0 vs u wantVel wantAcc = .ok r) ∧
    (∀ ctrl : List G, ctrl.length = K + 1 →
      ∃ r, bspline_eval_ctrl ops K ctrl u wantVel wantAcc = .ok r) := by
  refine ⟨?_, ?_, ?_, ?_⟩
  · intro vs h
    unfold bspline_eval
    rw [if_pos h]
  · intro ctrl h
    unfold bspline_eval_ctrl
    rw [if_pos h]
  · intro vs h
    unfold bspline_eval
    rw [if_neg (by simp [h])]
    exact ⟨_, rfl⟩
  · intro ctrl h
    unfold bspline_eval_ctrl bspline_eval
    rw [if_neg (by simp [h])]
    have hd : ((ctrl.zip ctrl.tail).map
        (fun p => ops.log (ops.mul (ops.inv p.1) p.2))).length = K := by
      simp [List.length_zip, h]
    rw [if_neg (by simp [hd])]
    exact ⟨_, rfl⟩

/-- Witness for C7: degree `K = 2` with a one-element displacement window
(wrong size) on the translation group on `ℚ¹`. -/
theorem claim_C7_witness :
    [(fun _ => 1 : Fin 1 → ℚ)].length ≠ 2 ∧
    bspline_eval (transOps 1) 2 0 [fun _ => 1] 0 false false
    = .error (.sizeViolation 2 [(fun _ => 1 : Fin 1 → ℚ)].length) :=
  ⟨by decide, (claim_C7 (transOps 1) 2 0 0 false false).1 [fun _ => 1] (by decide)⟩

/-- C8: for a degree `K = 1` spline with control points
`[Identity(), exp(a)]`, `t0 = 0`, `dt = 1`, on any group satisfying the
contract laws: `eval(0.5)` returns `exp(0.5·a)`, `eval(-10)` returns
`Identity()` (clamped), and `eval(10)` returns `exp(a)` (clamped); the
spec's scenario takes `a = [1,0,0]` on a 3-DoF group. -/
theorem claim_C8 {G V : Type} [AddCommGroup V] [Module ℚ V] (ops : LieOps G V)
    (laws : LieLaws ops) (a : V) :
    BSplineS.eval ops 1 ⟨0, 1, [ops.one, ops.exp a]⟩ (1 / 2) false false
      = .ok ⟨ops.exp ((1 / 2 : ℚ) • a), 0, 0⟩ ∧
    BSplineS.eval ops 1 ⟨0, 1, [ops.one, ops.exp a]⟩ (-10) false false
      = .ok ⟨ops.one, 0, 0⟩ ∧
    BSplineS.eval ops 1 ⟨0, 1, [ops.one, ops.exp a]⟩ 10 false false
      = .ok ⟨ops.exp a, 0, 0⟩ := by
  have hwin : ∀ u : ℚ, bspline_eval_ctrl ops 1 [ops.one, ops.exp a] u false false
      = .ok ⟨ops.exp (u • a), 0, 0⟩ := by
    intro u
    unfold bspline_eval_ctrl
    rw [if_neg (by simp)]
    show bspline_eval ops 1 ops.one
      [ops.log (ops.mul (ops.inv ops.one) (ops.exp a))] u false false = _
    have hd : ops.log (ops.mul (ops.inv ops.one) (ops.exp a)) = a := by
      rw [inv_one_of_laws laws, laws.one_mul, laws.log_exp]
    rw [hd]
    unfold bspline_eval
    rw [if_neg (by simp)]
    have h1 : bloop ops 1 u false false 1 ⟨ops.one, (0 : V), (0 : V)⟩ [a]
        = ⟨ops.mul ops.one (ops.exp (Btilde 1 1 u • a)), 0, 0⟩ := by
      simp [bloop, bstep]
    rw [h1, Btilde_one_one, laws.one_mul]
  refine ⟨?_, ?_, ?_⟩
  · have hp : BSplineS.evalPair 1 (⟨0, 1, [ops.one, ops.exp a]⟩ : BSplineS G) (1 / 2)
        = (0, 1 / 2) := by
      unfold BSplineS.evalPair
      norm_num
      have h : truncQ ((1 / 2 : ℚ)) = 0 := by
        unfold truncQ
        norm_num
      rw [h]
      norm_num
    have hstep : BSplineS.eval ops 1 ⟨0, 1, [ops.one, ops.exp a]⟩ (1 / 2) false false
        = Except.map (scaleOut 1 false false)
            (bspline_eval_ctrl ops 1 [ops.one, ops.exp a] (1 / 2) false false) := by
      unfold BSplineS.eval
      rw [hp]
      rfl
    rw [hstep, scaleOut_false, hwin]
  · have hp : BSplineS.evalPair 1 (⟨0, 1, [ops.one, ops.exp a]⟩ : BSplineS G) (-10)
        = (0, 0) := by
      unfold BSplineS.evalPair
      norm_num
      have h : truncQ ((-10 : ℚ)) = -10 := by
        rw [show ((-10 : ℚ)) = ((-10 : ℤ) : ℚ) from by norm_num, truncQ_intCast]
      rw [h]
      norm_num
    have hstep : BSplineS.eval ops 1 ⟨0, 1, [ops.one, ops.exp a]⟩ (-10) false false
        = Except.map (scaleOut 1 false false)
            (bspline_eval_ctrl ops 1 [ops.one, ops.exp a] 0 false false) := by
      unfold BSplineS.eval
      rw [hp]
      rfl
    rw [hstep, scaleOut_false, hwin]
    rw [zero_smul, laws.exp_zero]
  · have hp : BSplineS.evalPair 1 (⟨0, 1, [ops.one, ops.exp a]⟩ : BSplineS G) 10
        = (0, 1) := by
      unfold BSplineS.evalPair
      norm_num
      have h : truncQ ((10 : ℚ)) = 10 := by
        rw [show ((10 : ℚ)) = ((10 : ℤ) : ℚ) from by norm_num, truncQ_intCast]
      rw [h]
      norm_num
    have hstep : BSplineS.eval ops 1 ⟨0, 1, [ops.one, ops.exp a]⟩ 10 false false
        = Except.map (scaleOut 1 false false)
            (bspline_eval_ctrl ops 1 [ops.one, ops.exp a] 1 false false) := by
      unfold BSplineS.eval
      rw [hp]
      rfl
    rw [hstep, scaleOut_false, hwin]
    rw [one_smul]

/-- Witness for C8: the 3-DoF translation group `(ℚ³, +)` with
`a = [1,0,0]`. -/
theorem claim_C8_witness :
    BSplineS.eval (transOps 3) 1
      ⟨0, 1, [(transOps 3).one,
        (transOps 3).exp (fun i => if i = 0 then 1 else 0 : Fin 3 → ℚ)]⟩
      (1 / 2) false false
      = .ok ⟨(transOps 3).exp
          ((1 / 2 : ℚ) • (fun i => if i = 0 then 1 else 0 : Fin 3 → ℚ)), 0, 0⟩ ∧
    BSplineS.eval (transOps 3) 1
      ⟨0, 1, [(transOps 3).one,
        (transOps 3).exp (fun i => if i = 0 then 1 else 0 : Fin 3 → ℚ)]⟩
      (-10) false false
      = .ok ⟨(transOps 3).one, 0, 0⟩ ∧
    BSplineS.eval (transOps 3) 1
      ⟨0, 1, [(transOps 3).one,
        (transOps 3).exp (fun i => if i = 0 then 1 else 0 : Fin 3 → ℚ)]⟩
      10 false false
      = .ok ⟨(transOps 3).exp (fun i => if i = 0 then 1 else 0 : Fin 3 → ℚ), 0, 0⟩ :=
  claim_C8 (transOps 3) (transLaws 3) (fun i => if i = 0 then 1 else 0 : Fin 3 → ℚ)

/-- C9: the velocity written by `BSpline::eval` equals the control-point
evaluator's unit-interval first derivative rescaled by `1/dt` and the
acceleration the unit-interval second derivative rescaled by `1/dt²`
(`scaleOut`); in particular, for a spline with `dt = 2` and the `dt = 1`
spline over the same control points queried at matching `(istar, u)`, the
returned velocity is half and the returned acceleration a quarter of the
`dt = 1` values. -/
theorem claim_C9 {G V : Type} [AddCommGroup V] [Module ℚ V] (ops : LieOps G V) (K : ℕ)
    (t0 : ℚ) (ctrl : List G) (istar : ℕ) (u : ℚ)
    (h0 : 0 ≤ u) (h1 : u < 1) (hlen : istar + (K + 1) ≤ ctrl.length) :
    (∀ dt : ℚ, 0 < dt →
      BSplineS.eval ops K ⟨t0, dt, ctrl⟩ (t0 + ((istar : ℚ) + u) * dt) true true
      = Except.map (scaleOut dt true true)
          (bspline_eval_ctrl ops K ((ctrl.drop istar).take (K + 1)) u true true)) ∧
    (∀ r1 r2,
      BSplineS.eval ops K ⟨t0, 1, ctrl⟩ (t0 + ((istar : ℚ) + u) * 1) true true = .ok r1 →
      BSplineS.eval ops K ⟨t0, 2, ctrl⟩ (t0 + ((istar : ℚ) + u) * 2) true true = .ok r2 →
      r2.vel = (1 / 2 : ℚ) • r1.vel ∧ r2.acc = (1 / 4 : ℚ) • r1.acc) := by
  have main : ∀ dt : ℚ, 0 < dt →
      BSplineS.eval ops K ⟨t0, dt, ctrl⟩ (t0 + ((istar : ℚ) + u) * dt) true true
      = Except.map (scaleOut dt true true)
          (bspline_eval_ctrl ops K ((ctrl.drop istar).take (K + 1)) u true true) := by
    intro dt hdt
    have harg : (t0 + ((istar : ℚ) + u) * dt - t0) / dt = (istar : ℚ) + u := by
      field_simp
    have htr : truncQ ((t0 + ((istar : ℚ) + u) * dt - t0) / dt) = istar := by
      rw [harg]
      exact truncQ_natCast_add istar u h0 h1
    have hA : ¬ truncQ ((t0 + ((istar : ℚ) + u) * dt - t0) / dt) < 0 := by
      rw [htr]
      omega
    have hB : ¬ ((ctrl.length : ℤ)
        < truncQ ((t0 + ((istar : ℚ) + u) * dt - t0) / dt) + K + 1) := by
      rw [htr]
      omega
    have hp : BSplineS.evalPair K (⟨t0, dt, ctrl⟩ : BSplineS G)
        (t0 + ((istar : ℚ) + u) * dt) = ((istar : ℤ), u) := by
      unfold BSplineS.evalPair
      rw [if_neg hA, if_neg hB, htr]
      refine congrArg₂ Prod.mk rfl ?_
      push_cast
      field_simp
      ring
    have hstep : BSplineS.eval ops K ⟨t0, dt, ctrl⟩ (t0 + ((istar : ℚ) + u) * dt)
        true true
        = Except.map (scaleOut dt true true)
            (bspline_eval_ctrl ops K
              ((ctrl.drop ((istar : ℤ)).toNat).take (K + 1)) u true true) := by
      unfold BSplineS.eval
      rw [hp]
    rw [hstep, show ((istar : ℤ)).toNat = istar from by omega]
  refine ⟨main, ?_⟩
  intro r1 r2 hr1 hr2
  rw [main 1 (by norm_num)] at hr1
  rw [main 2 (by norm_num)] at hr2
  cases hw : bspline_eval_ctrl ops K ((ctrl.drop istar).take (K + 1)) u true true with
  | error e =>
    rw [hw] at hr1
    simp [Except.map] at hr1
  | ok w =>
    rw [hw] at hr1 hr2
    have e1 : scaleOut 1 true true w = r1 := Except.ok.inj hr1
    have e2 : scaleOut 2 true true w = r2 := Except.ok.inj hr2
    rw [← e1, ← e2]
    unfold scaleOut
    constructor
    · show (if true then ((2 : ℚ))⁻¹ • w.vel else w.vel)
        = (1 / 2 : ℚ) • (if true then ((1 : ℚ))⁻¹ • w.vel else w.vel)
      simp [smul_smul]
    · show (if true then ((2 : ℚ) * 2)⁻¹ • w.acc else w.acc)
        = (1 / 4 : ℚ) • (if true then ((1 : ℚ) * 1)⁻¹ • w.acc else w.acc)
      simp [smul_smul]
      rw [show ((2 : ℚ)⁻¹ * (2 : ℚ)⁻¹) = ((4 : ℚ))⁻¹ from by norm_num]

/-- Witness for C9: the 1-DoF translation group, degree `K = 1`, two control
points, `istar = 0`, `u = 0`, `dt = 1`. -/
theorem claim_C9_witness :
    (0 : ℚ) ≤ 0 ∧ (0 : ℚ) < 1 ∧ 0 + (1 + 1) ≤ 2 ∧
    BSplineS.eval (transOps 1) 1 ⟨0, 1, [(0 : Fin 1 → ℚ), fun _ => 1]⟩
      (0 + (((0 : ℕ) : ℚ) + 0) * 1) true true
    = Except.map (scaleOut 1 true true)
        (bspline_eval_ctrl (transOps 1) 1
          (([(0 : Fin 1 → ℚ), fun _ => 1].drop 0).take (1 + 1)) 0 true true) :=
  ⟨by decide, by decide, by decide,
    (claim_C9 (transOps 1) 1 0 [(0 : Fin 1 → ℚ), fun _ => 1] 0 0 (by decide) (by decide)
      (by decide)).1 1 (by decide)⟩

/-- C10: both parameterized `BSpline` constructors store `t0`, `dt` and the
control points without any validation: for every `t0`, every `dt` (including
`dt ≤ 0`) and every control-point sequence (including sequences shorter than
`K + 1`), construction succeeds (the constructors are total) and the stored
fields are exactly the arguments. -/
theorem claim_C10 {G : Type} :
    ∀ (t0 dt : ℚ) (ctrl : List G),
      (BSplineS.mkMove t0 dt ctrl).t0 = t0 ∧
      (BSplineS.mkMove t0 dt ctrl).dt = dt ∧
      (BSplineS.mkMove t0 dt ctrl).ctrl = ctrl ∧
      BSplineS.mkRange t0 dt ctrl = BSplineS.mkMove t0 dt ctrl := by
  intro t0 dt ctrl
  exact ⟨rfl, rfl, rfl, rfl⟩

end SmoothSpec
